import Mathlib

/-!
Verification development for the CoGeLoT data-collation and replay-buffer layer.

The embedding models the two core components of the repository:

* `collate_variable_ndim_batch` (from `src/cogelot/data/collate.py`): collates a
  non-empty list of equal-rank tensors into one stacked tensor, right-padding
  every axis of every element up to the batch-wise maximum extent.
* `ReplayBuffer` (from `src/cogelot/environment/replay_buffer.py`): an
  append-only per-episode accumulator of encoded tensors with derived padded
  views.

A torch tensor is modelled as a `shape` (list of per-axis extents, the tensor
metadata) together with a nested-list tree holding the elements (the storage).
Python exceptions are modelled with `Except String`; Python `None` with
`Option`.
-/

namespace CoGeLoT

/-- Storage of an n-dimensional tensor: a nested list tree.  A rank-0 tensor is
a `scalar`; a rank-(k+1) tensor is a `node` whose children are its slices along
axis 0. -/
inductive NTree (α : Type) : Type where
  | scalar (x : α) : NTree α
  | node (children : List (NTree α)) : NTree α

mutual

/-- Does the tree hold data of exactly the given shape (rank and extents)? -/
def NTree.hasShape {α : Type} : NTree α → List Nat → Bool
  | .scalar _, [] => true
  | .scalar _, _ :: _ => false
  | .node _, [] => false
  | .node ts, n :: rest => ts.length == n && NTree.hasShapeAll ts rest

/-- All trees in the list have the given shape. -/
def NTree.hasShapeAll {α : Type} : List (NTree α) → List Nat → Bool
  | [], _ => true
  | t :: ts, s => t.hasShape s && NTree.hasShapeAll ts s

end

mutual

/-- Element lookup at a multi-index; `none` when the index has the wrong rank
or is out of bounds. -/
def NTree.get {α : Type} : NTree α → List Nat → Option α
  | .scalar x, [] => some x
  | .scalar _, _ :: _ => none
  | .node _, [] => none
  | .node ts, i :: idx => NTree.getAt ts i idx

/-- Lookup in the i-th child of a node. -/
def NTree.getAt {α : Type} : List (NTree α) → Nat → List Nat → Option α
  | [], _, _ => none
  | t :: _, 0, idx => t.get idx
  | _ :: ts, n + 1, idx => NTree.getAt ts n idx

end

/-- The tree of the given shape that is constantly `p` (the freshly padded
region produced by `torch.nn.functional.pad`). -/
def NTree.full {α : Type} (p : α) : List Nat → NTree α
  | [] => .scalar p
  | n :: rest => .node (List.replicate n (NTree.full p rest))

mutual

/-- Right-pad every axis of a tree up to the target extents with value `p`.
This is the semantics of the `torch.nn.functional.pad(tensor, padding, value)`
call in `collate_variable_ndim_batch`: the computed `padding` list pads each
axis only at its high end, by that axis's deficit (target extent minus current
extent). -/
def NTree.padTo {α : Type} (p : α) : List Nat → NTree α → NTree α
  | [], t => t
  | _ :: _, .scalar x => .scalar x
  | n :: rest, .node ts =>
      .node (NTree.padToAll p rest ts ++ List.replicate (n - ts.length) (NTree.full p rest))

/-- Pad every tree in a list to the same target extents. -/
def NTree.padToAll {α : Type} (p : α) : List Nat → List (NTree α) → List (NTree α)
  | _, [] => []
  | s, t :: ts => NTree.padTo p s t :: NTree.padToAll p s ts

end

/-- A torch tensor: shape metadata plus element storage. -/
@[ext]
structure Tensor (α : Type) where
  shape : List Nat
  tree : NTree α

/-- A tensor is well formed when its storage really has its advertised shape. -/
def Tensor.wf {α : Type} (t : Tensor α) : Bool :=
  t.tree.hasShape t.shape

/-- Element lookup at a multi-index. -/
def Tensor.get {α : Type} (t : Tensor α) (idx : List Nat) : Option α :=
  t.tree.get idx

/-- Is the multi-index inside a tensor of the given shape (same rank,
coordinatewise strictly below the extents)? -/
def inBounds : List Nat → List Nat → Bool
  | [], [] => true
  | i :: is, n :: ns => decide (i < n) && inBounds is ns
  | _, _ => false

/-- Same rank, coordinatewise less-or-equal extents. -/
def shapeLe : List Nat → List Nat → Bool
  | [], [] => true
  | a :: as, b :: bs => decide (a ≤ b) && shapeLe as bs
  | _, _ => false

/-- Elementwise maximum of a list of shapes: the
`shape_per_tensor.max(dim=0).values` computation of
`collate_variable_ndim_batch`.  (torch requires all shapes to have the same
length for the stacking into `shape_per_tensor` to succeed.) -/
def maxShape : List (List Nat) → List Nat
  | [] => []
  | s :: rest => rest.foldl (fun acc sh => List.zipWith Nat.max acc sh) s

/-- `torch.stack(batch, dim=0)`: a new leading batch axis; every element keeps
its (common) shape. -/
def Tensor.stack {α : Type} (batch : List (Tensor α)) : Tensor α :=
  ⟨batch.length :: ((batch.head?.map Tensor.shape).getD []), .node (batch.map Tensor.tree)⟩

/-- `Tensor.padTo`: the tensor padded at the high end of every axis up to the
target extents. -/
def Tensor.padTo {α : Type} (p : α) (target : List Nat) (t : Tensor α) : Tensor α :=
  ⟨target, t.tree.padTo p target⟩

/-- `collate_variable_ndim_batch` from `src/cogelot/data/collate.py`.

Mirrors the source: on an empty batch the very first statement
(`batch[0].device`) raises `IndexError`, modelled as `Except.error`.  Otherwise
compute per-tensor shapes, the per-axis maximum, and per-tensor deficits; if no
padding is needed anywhere, stack directly; otherwise pad each tensor whose
deficit vector is nonzero at the end of every axis with `padding_value`, then
stack.  (The python default `padding_value=0` is supplied explicitly at every
call site of this embedding.) -/
def collate_variable_ndim_batch {α : Type} (batch : List (Tensor α)) (padding_value : α) :
    Except String (Tensor α) :=
  match batch with
  | [] => .error "IndexError: list index out of range"
  | _ :: _ =>
    let shape_per_tensor : List (List Nat) := batch.map Tensor.shape
    let max_size_per_dim : List Nat := maxShape shape_per_tensor
    let padding_needed_per_tensor : List (List Nat) :=
      shape_per_tensor.map (fun s => List.zipWith (fun m e => m - e) max_size_per_dim s)
    if padding_needed_per_tensor.all (fun ds => ds.all (fun d => d == 0)) then
      .ok (Tensor.stack batch)
    else
      let padded_tensors : List (Tensor α) :=
        List.zipWith
          (fun t ds =>
            if ds.all (fun d => d == 0) then t
            else Tensor.padTo padding_value max_size_per_dim t)
          batch padding_needed_per_tensor
      .ok (Tensor.stack padded_tensors)

/-- `tensor.squeeze(0)`: drop the leading axis when its extent is 1, otherwise
return the tensor unchanged. -/
def Tensor.squeeze0 {α : Type} (t : Tensor α) : Tensor α :=
  match t.shape, t.tree with
  | 1 :: rest, .node [u] => ⟨rest, u⟩
  | _, _ => t

/-- `tensor.unsqueeze(0)`: insert a new leading axis of extent 1. -/
def Tensor.unsqueeze0 {α : Type} (t : Tensor α) : Tensor α :=
  ⟨1 :: t.shape, .node [t.tree]⟩

/-- Object-feature keys of `ObjectFeatureName = Literal["bbox", "cropped_img", "mask"]`. -/
inductive ObjectFeatureName : Type where
  | bbox
  | cropped_img
  | mask
deriving DecidableEq, BEq

/-- View keys of `ViewLiteral = Literal["front", "top"]`. -/
inductive ViewLiteral : Type where
  | front
  | top
deriving DecidableEq, BEq

/-- Modelled from the spec: `PoseActionType` is declared in
`cogelot/structures/vima.py`, which is not among the sources; its four
pose-action keys are taken from their use in `cogelot/structures/token.py`
(`to_target_pose_action`) and the spec's action-modality description. -/
inductive PoseActionType : Type where
  | pose0_position
  | pose1_position
  | pose0_rotation
  | pose1_rotation
deriving DecidableEq, BEq

/-- `get_args(ObjectFeatureName)`: the fixed, statically known key list. -/
def objectFeatureNames : List ObjectFeatureName :=
  [.bbox, .cropped_img, .mask]

/-- `get_args(ViewLiteral)`: the fixed, statically known view list. -/
def viewLiterals : List ViewLiteral :=
  [.front, .top]

/-- `get_args(PoseActionType)`: the fixed, statically known pose-action list. -/
def poseActionTypes : List PoseActionType :=
  [.pose0_position, .pose1_position, .pose0_rotation, .pose1_rotation]

/-- An `ObjectFeatures` dict (`dict[ObjectFeatureName, dict[ViewLiteral,
torch.Tensor]]`): the code only ever indexes it at the statically known keys,
so it is modelled as a total map. -/
def ObjectFeatures : Type :=
  ObjectFeatureName → ViewLiteral → Tensor ℤ

/-- `collate_object_features` from `src/cogelot/data/collate.py`: iterate the
fixed key set (feature names crossed with views, in declaration order), and
collate each leaf list independently with the scalar collator at its default
padding value 0, rebuilding the nested dict-of-dicts (modelled as nested
association lists in insertion order).  A leaf holds the collator's outcome
(`Except`), since the collator raises on an empty batch. -/
def collate_object_features (image_batches : List ObjectFeatures) :
    List (ObjectFeatureName × List (ViewLiteral × Except String (Tensor ℤ))) :=
  objectFeatureNames.map (fun object_feature_name =>
    (object_feature_name, viewLiterals.map (fun view_name =>
      (view_name,
        collate_variable_ndim_batch
          (image_batches.map (fun image_batch => image_batch object_feature_name view_name))
          0))))

/-- `collate_action_batch` from `src/cogelot/data/collate.py`: iterate the
fixed pose-action key set and collate each leaf list independently with the
scalar collator; the default padding value is -100. -/
def collate_action_batch (batches : List (PoseActionType → Tensor ℤ))
    (padding_value : ℤ := -100) :
    List (PoseActionType × Except String (Tensor ℤ)) :=
  poseActionTypes.map (fun pose_action_type =>
    (pose_action_type,
      collate_variable_ndim_batch
        (batches.map (fun batch => batch pose_action_type)) padding_value))

/-- A validated pose action (`PoseAction.model_validate({"index": len(self._actions), ...})`):
the payload together with its position index. -/
structure PoseAction (Act : Type) where
  index : Nat
  action : Act

/-- `ReplayBuffer` state from `src/cogelot/environment/replay_buffer.py`,
fields in `__init__` order.  Raw observations and raw actions are structured
records from out-of-scope modules, so their payload types are parameters. -/
structure ReplayBuffer (Obs Act : Type) where
  observations : List Obs
  actions : List (PoseAction Act)
  success_per_step : List Bool
  encoded_prompt : List (Tensor ℤ)
  encoded_prompt_mask : List (Tensor ℤ)
  encoded_observations : List (Tensor ℤ)
  encoded_observation_masks : List (Tensor ℤ)
  encoded_actions : List (Tensor ℤ)
  encoded_action_masks : List (Tensor ℤ)

variable {Obs Act : Type}

/-- `ReplayBuffer()`: every sequence starts empty. -/
def ReplayBuffer.empty : ReplayBuffer Obs Act :=
  ⟨[], [], [], [], [], [], [], [], []⟩

/-- `num_actions` property: the number of encoded actions. -/
def ReplayBuffer.numActions (b : ReplayBuffer Obs Act) : Nat :=
  b.encoded_actions.length

/-- `__len__`: the number of steps taken, defined as `num_actions`. -/
def ReplayBuffer.length (b : ReplayBuffer Obs Act) : Nat :=
  b.numActions

/-- `num_observations` property. -/
def ReplayBuffer.numObservations (b : ReplayBuffer Obs Act) : Nat :=
  b.encoded_observations.length

/-- `is_successful` property: `self._success_per_step[-1]`, with the
`IndexError` on an empty list caught and turned into `False`. -/
def ReplayBuffer.isSuccessful (b : ReplayBuffer Obs Act) : Bool :=
  (b.success_per_step.getLast?).getD false

/-- `update_success_tracker`: append one success flag. -/
def ReplayBuffer.updateSuccessTracker (b : ReplayBuffer Obs Act) (is_successful : Bool) :
    ReplayBuffer Obs Act :=
  { b with success_per_step := b.success_per_step ++ [is_successful] }

/-- `add_observation`: append one raw observation. -/
def ReplayBuffer.addObservation (b : ReplayBuffer Obs Act) (observation : Obs) :
    ReplayBuffer Obs Act :=
  { b with observations := b.observations ++ [observation] }

/-- `add_action`: validate the continuous actions into a `PoseAction` carrying
`index = len(self._actions)` and append it. -/
def ReplayBuffer.addAction (b : ReplayBuffer Obs Act) (continuous_actions : Act) :
    ReplayBuffer Obs Act :=
  { b with actions := b.actions ++ [⟨b.actions.length, continuous_actions⟩] }

/-- `add_next_encoded_observation`: append the encoded observation and its mask. -/
def ReplayBuffer.addNextEncodedObservation (b : ReplayBuffer Obs Act)
    (encoded_observation encoded_observation_mask : Tensor ℤ) : ReplayBuffer Obs Act :=
  { b with
    encoded_observations := b.encoded_observations ++ [encoded_observation]
    encoded_observation_masks := b.encoded_observation_masks ++ [encoded_observation_mask] }

/-- `add_next_encoded_action`: append the encoded action and its mask. -/
def ReplayBuffer.addNextEncodedAction (b : ReplayBuffer Obs Act)
    (encoded_action encoded_action_mask : Tensor ℤ) : ReplayBuffer Obs Act :=
  { b with
    encoded_actions := b.encoded_actions ++ [encoded_action]
    encoded_action_masks := b.encoded_action_masks ++ [encoded_action_mask] }

/-- `encoded_prompt` getter: `self._encoded_prompt[0]`; `none` models the
`IndexError` raised when nothing was set. -/
def ReplayBuffer.encodedPrompt (b : ReplayBuffer Obs Act) : Option (Tensor ℤ) :=
  b.encoded_prompt[0]?

/-- `encoded_prompt` setter: raises when the prompt is already set, else
appends the value to the singleton holder list. -/
def ReplayBuffer.setEncodedPrompt (b : ReplayBuffer Obs Act) (encoded_prompt : Tensor ℤ) :
    Except String (ReplayBuffer Obs Act) :=
  if b.encoded_prompt.isEmpty then
    .ok { b with encoded_prompt := b.encoded_prompt ++ [encoded_prompt] }
  else
    .error "Cannot set the encoded prompt twice. Need to reset buffer first."

/-- `encoded_prompt_mask` getter: `self._encoded_prompt_mask[0]`. -/
def ReplayBuffer.encodedPromptMask (b : ReplayBuffer Obs Act) : Option (Tensor ℤ) :=
  b.encoded_prompt_mask[0]?

/-- `encoded_prompt_mask` setter: raises when already set, else appends. -/
def ReplayBuffer.setEncodedPromptMask (b : ReplayBuffer Obs Act)
    (encoded_prompt_mask : Tensor ℤ) : Except String (ReplayBuffer Obs Act) :=
  if b.encoded_prompt_mask.isEmpty then
    .ok { b with encoded_prompt_mask := b.encoded_prompt_mask ++ [encoded_prompt_mask] }
  else
    .error "Cannot set the encoded prompt twice. Need to reset buffer first."

/-- `encoded_observations` property: squeeze the two leading size-1 axes off
every stored per-step tensor, collate (default padding value 0), then
unsqueeze a leading batch axis back on.  On an empty buffer the collator's
`IndexError` propagates. -/
def ReplayBuffer.encodedObservations (b : ReplayBuffer Obs Act) : Except String (Tensor ℤ) :=
  let observations := b.encoded_observations.map (fun t => t.squeeze0.squeeze0)
  (collate_variable_ndim_batch observations 0).map Tensor.unsqueeze0

/-- `encoded_observation_masks` property: same derivation over the stored
masks. -/
def ReplayBuffer.encodedObservationMasks (b : ReplayBuffer Obs Act) :
    Except String (Tensor ℤ) :=
  let masks := b.encoded_observation_masks.map (fun t => t.squeeze0.squeeze0)
  (collate_variable_ndim_batch masks 0).map Tensor.unsqueeze0

/-- `encoded_actions` property: `None` when no action was recorded yet,
otherwise the same squeeze/collate/unsqueeze derivation. -/
def ReplayBuffer.encodedActions (b : ReplayBuffer Obs Act) :
    Except String (Option (Tensor ℤ)) :=
  if b.encoded_actions.isEmpty then
    .ok none
  else
    let actions := b.encoded_actions.map (fun t => t.squeeze0.squeeze0)
    (collate_variable_ndim_batch actions 0).map (fun c => some c.unsqueeze0)

/-- `encoded_actions_mask` property: `None` when no action was recorded yet,
otherwise the same derivation over the stored action masks. -/
def ReplayBuffer.encodedActionsMask (b : ReplayBuffer Obs Act) :
    Except String (Option (Tensor ℤ)) :=
  if b.encoded_action_masks.isEmpty then
    .ok none
  else
    let masks := b.encoded_action_masks.map (fun t => t.squeeze0.squeeze0)
    (collate_variable_ndim_batch masks 0).map (fun c => some c.unsqueeze0)

/-- `reset`: every field is set back to the empty list. -/
def ReplayBuffer.reset (b : ReplayBuffer Obs Act) : ReplayBuffer Obs Act :=
  { b with
    encoded_prompt := []
    encoded_prompt_mask := []
    encoded_observations := []
    encoded_observation_masks := []
    encoded_actions := []
    encoded_action_masks := []
    success_per_step := []
    observations := []
    actions := [] }

/-- One call on the replay buffer's appending interface, used to state
claims about whole call sequences. -/
inductive BufferOp (Obs Act : Type) : Type where
  | addObservation (observation : Obs)
  | addAction (continuous_actions : Act)
  | updateSuccessTracker (is_successful : Bool)
  | addNextEncodedObservation (t m : Tensor ℤ)
  | addNextEncodedAction (t m : Tensor ℤ)

/-- Apply one buffer call to the state. -/
def ReplayBuffer.applyOp (b : ReplayBuffer Obs Act) : BufferOp Obs Act → ReplayBuffer Obs Act
  | .addObservation o => b.addObservation o
  | .addAction a => b.addAction a
  | .updateSuccessTracker s => b.updateSuccessTracker s
  | .addNextEncodedObservation t m => b.addNextEncodedObservation t m
  | .addNextEncodedAction t m => b.addNextEncodedAction t m

/-- Is the call an `add_next_encoded_action` call? -/
def BufferOp.isEncodedAction : BufferOp Obs Act → Bool
  | .addNextEncodedAction _ _ => true
  | _ => false

/-! ### Concrete inputs used to exercise the theorems -/

/-- A rank-1 integer tensor from a list. -/
def vecT (xs : List ℤ) : Tensor ℤ :=
  ⟨[xs.length], .node (xs.map .scalar)⟩

/-- A rank-2 integer tensor from a rectangular list of rows. -/
def matT (xss : List (List ℤ)) : Tensor ℤ :=
  ⟨[xss.length, (xss.headD []).length], .node (xss.map (fun r => .node (r.map .scalar)))⟩

/-- A per-step encoding of shape `(1, 1, d)`, as stored by the replay buffer. -/
def encT (xs : List ℤ) : Tensor ℤ :=
  ⟨[1, 1, xs.length], .node [.node [.node (xs.map .scalar)]]⟩

/-- The spec's concrete collation scenario: tensors of shapes
`(2,3)`, `(4,1)`, `(2,2)`. -/
def exampleBatch : List (Tensor ℤ) :=
  [matT [[1, 2, 3], [4, 5, 6]],
   matT [[7], [8], [9], [10]],
   matT [[11, 12], [13, 14]]]

/-- The spec's concrete replay-buffer scenario: three encoded observations
(with masks) of shapes `(1,1,5)`, `(1,1,7)`, `(1,1,5)`. -/
def exampleObservationPairs : List (Tensor ℤ × Tensor ℤ) :=
  [(encT [1, 2, 3, 4, 5], encT [1, 1, 1, 1, 1]),
   (encT [1, 2, 3, 4, 5, 6, 7], encT [1, 1, 1, 1, 1, 1, 1]),
   (encT [9, 8, 7, 6, 5], encT [1, 1, 1, 1, 1])]

/-- A small mixed call sequence on the replay buffer. -/
def exampleOps : List (BufferOp Unit Unit) :=
  [.addObservation (), .addNextEncodedObservation (encT [1, 2]) (encT [1, 1]),
   .addNextEncodedAction (encT [3]) (encT [1]), .updateSuccessTracker true,
   .addAction (), .addNextEncodedAction (encT [4, 5]) (encT [1, 1])]

/-- A batch whose elements all share one shape, for the fast-path scenario. -/
def exampleEqualBatch : List (Tensor ℤ) :=
  [matT [[1, 2], [3, 4]], matT [[5, 6], [7, 8]], matT [[0, 9], [9, 0]]]

/-- A constant object-features record, for exercising the composite collators. -/
def exampleFeatures : ObjectFeatures :=
  fun _ _ => matT [[1, 2], [3, 4]]

/-- A constant per-type action record, for exercising the action collator. -/
def exampleActions : PoseActionType → Tensor ℤ :=
  fun _ => vecT [1, 2, 3]

/-! ### Basic lemmas about the tree operations -/

theorem hasShapeAll_eq_all {α : Type} (ts : List (NTree α)) (s : List Nat) :
    NTree.hasShapeAll ts s = ts.all (fun t => t.hasShape s) := by
  induction ts with
  | nil => rfl
  | cons t ts ih => simp [NTree.hasShapeAll, ih]

theorem padToAll_eq_map {α : Type} (p : α) (s : List Nat) (ts : List (NTree α)) :
    NTree.padToAll p s ts = ts.map (NTree.padTo p s) := by
  induction ts with
  | nil => rfl
  | cons t ts ih => simp [NTree.padToAll, ih]

theorem getAt_eq {α : Type} (ts : List (NTree α)) (i : Nat) (idx : List Nat) :
    NTree.getAt ts i idx = (ts[i]?).bind (fun t => t.get idx) := by
  induction ts generalizing i with
  | nil => simp [NTree.getAt]
  | cons t ts ih =>
    cases i with
    | zero => simp [NTree.getAt]
    | succ n => simp [NTree.getAt, ih]

theorem shapeLe_refl (s : List Nat) : shapeLe s s = true := by
  induction s with
  | nil => rfl
  | cons a s ih => simp [shapeLe, ih]

theorem shapeLe_trans {a b c : List Nat} (h1 : shapeLe a b = true)
    (h2 : shapeLe b c = true) : shapeLe a c = true := by
  induction a generalizing b c with
  | nil => cases b <;> cases c <;> simp_all [shapeLe]
  | cons x xs ih =>
    cases b with
    | nil => simp [shapeLe] at h1
    | cons y ys =>
      cases c with
      | nil => simp [shapeLe] at h2
      | cons z zs =>
        simp only [shapeLe, Bool.and_eq_true, decide_eq_true_eq] at h1 h2 ⊢
        exact ⟨Nat.le_trans h1.1 h2.1, ih h1.2 h2.2⟩

theorem shapeLe_zipWith_max_left {a b : List Nat} (h : a.length = b.length) :
    shapeLe a (List.zipWith Nat.max a b) = true := by
  induction a generalizing b with
  | nil => simp [shapeLe]
  | cons x xs ih =>
    cases b with
    | nil => simp at h
    | cons y ys =>
      simp only [List.zipWith_cons_cons, shapeLe, Bool.and_eq_true, decide_eq_true_eq]
      exact ⟨Nat.le_max_left x y, ih (by simpa using h)⟩

theorem shapeLe_zipWith_max_right {a b : List Nat} (h : a.length = b.length) :
    shapeLe b (List.zipWith Nat.max a b) = true := by
  induction a generalizing b with
  | nil =>
    cases b with
    | nil => simp [shapeLe]
    | cons y ys => simp at h
  | cons x xs ih =>
    cases b with
    | nil => simp at h
    | cons y ys =>
      simp only [List.zipWith_cons_cons, shapeLe, Bool.and_eq_true, decide_eq_true_eq]
      exact ⟨Nat.le_max_right x y, ih (by simpa using h)⟩

theorem foldl_zipWith_max (rest : List (List Nat)) :
    ∀ acc : List Nat, (∀ s ∈ rest, s.length = acc.length) →
      (rest.foldl (fun a sh => List.zipWith Nat.max a sh) acc).length = acc.length ∧
      shapeLe acc (rest.foldl (fun a sh => List.zipWith Nat.max a sh) acc) = true ∧
      ∀ s ∈ rest, shapeLe s (rest.foldl (fun a sh => List.zipWith Nat.max a sh) acc) = true := by
  induction rest with
  | nil => exact fun acc _ => ⟨rfl, shapeLe_refl acc, by simp⟩
  | cons sh rest ih =>
    intro acc h
    have hsh : sh.length = acc.length := h sh (by simp)
    have hacc : (List.zipWith Nat.max acc sh).length = acc.length := by
      rw [List.length_zipWith, hsh]
      exact Nat.min_self _
    have hrest : ∀ s ∈ rest, s.length = (List.zipWith Nat.max acc sh).length := by
      intro s hs
      rw [hacc]
      exact h s (List.mem_cons_of_mem _ hs)
    obtain ⟨hl, hle, hmem⟩ := ih (List.zipWith Nat.max acc sh) hrest
    refine ⟨?_, ?_, ?_⟩
    · rw [List.foldl_cons, hl, hacc]
    · rw [List.foldl_cons]
      exact shapeLe_trans (shapeLe_zipWith_max_left hsh.symm) hle
    · intro s hs
      rw [List.foldl_cons]
      rcases List.mem_cons.mp hs with rfl | hs2
      · exact shapeLe_trans (shapeLe_zipWith_max_right hsh.symm) hle
      · exact hmem s hs2

theorem maxShape_length {ss : List (List Nat)} {r : Nat} (hne : ss ≠ [])
    (h : ∀ s ∈ ss, s.length = r) : (maxShape ss).length = r := by
  cases ss with
  | nil => exact absurd rfl hne
  | cons s0 rest =>
    have h0 : s0.length = r := h s0 (by simp)
    have hr : ∀ s ∈ rest, s.length = s0.length := by
      intro s hs
      rw [h0]
      exact h s (List.mem_cons_of_mem _ hs)
    have := (foldl_zipWith_max rest s0 hr).1
    simpa [maxShape, h0] using this

theorem maxShape_le {ss : List (List Nat)} (h : ∀ s ∈ ss, s.length = (ss.headD []).length) :
    ∀ s ∈ ss, shapeLe s (maxShape ss) = true := by
  cases ss with
  | nil => simp
  | cons s0 rest =>
    have hr : ∀ s ∈ rest, s.length = s0.length := by
      intro s hs
      exact h s (List.mem_cons_of_mem _ hs)
    obtain ⟨_, hle, hmem⟩ := foldl_zipWith_max rest s0 hr
    intro s hs
    rcases List.mem_cons.mp hs with rfl | hs2
    · exact hle
    · exact hmem s hs2

theorem inBounds_mono {idx s u : List Nat} (h1 : inBounds idx s = true)
    (h2 : shapeLe s u = true) : inBounds idx u = true := by
  induction idx generalizing s u with
  | nil => cases s <;> cases u <;> simp_all [inBounds, shapeLe]
  | cons i is ih =>
    cases s with
    | nil => simp [inBounds] at h1
    | cons m ms =>
      cases u with
      | nil => simp [shapeLe] at h2
      | cons n ns =>
        simp only [inBounds, shapeLe, Bool.and_eq_true, decide_eq_true_eq] at h1 h2 ⊢
        exact ⟨Nat.lt_of_lt_of_le h1.1 h2.1, ih h1.2 h2.2⟩

theorem full_hasShape {α : Type} (p : α) (s : List Nat) :
    (NTree.full p s).hasShape s = true := by
  induction s with
  | nil => rfl
  | cons n rest ih =>
    simp only [NTree.full, NTree.hasShape, hasShapeAll_eq_all, Bool.and_eq_true,
      List.all_eq_true, List.length_replicate, beq_self_eq_true, true_and]
    intro t ht
    rw [List.eq_of_mem_replicate ht]
    exact ih

theorem full_get {α : Type} (p : α) :
    ∀ (s idx : List Nat), inBounds idx s = true → (NTree.full p s).get idx = some p := by
  intro s
  induction s with
  | nil =>
    intro idx h
    cases idx with
    | nil => rfl
    | cons i is => simp [inBounds] at h
  | cons n rest ih =>
    intro idx h
    cases idx with
    | nil => simp [inBounds] at h
    | cons i is =>
      simp only [inBounds, Bool.and_eq_true, decide_eq_true_eq] at h
      rw [NTree.full, NTree.get, getAt_eq, List.getElem?_replicate, if_pos h.1]
      exact ih is h.2

theorem map_id_of_mem {α : Type} {f : α → α} :
    ∀ l : List α, (∀ a ∈ l, f a = a) → l.map f = l := by
  intro l h
  induction l with
  | nil => rfl
  | cons a l ih =>
    simp only [List.map_cons, h a (by simp), List.cons.injEq, true_and]
    exact ih (fun b hb => h b (List.mem_cons_of_mem _ hb))

theorem zipWith_map_self {α β γ : Type} (f : α → β → γ) (g : α → β) (l : List α) :
    List.zipWith f l (l.map g) = l.map (fun a => f a (g a)) := by
  rw [List.zipWith_map_right, List.zipWith_same]

/-! ### Padding lemmas -/

theorem padTo_hasShape {α : Type} (p : α) :
    ∀ (target : List Nat) (t : NTree α) (s : List Nat),
      t.hasShape s = true → shapeLe s target = true →
      (NTree.padTo p target t).hasShape target = true := by
  intro target
  induction target with
  | nil =>
    intro t s hs hle
    cases s with
    | nil =>
      cases t with
      | scalar x => simpa [NTree.padTo] using hs
      | node ts => simp [NTree.hasShape] at hs
    | cons m ms => simp [shapeLe] at hle
  | cons n rest ih =>
    intro t s hs hle
    cases s with
    | nil => simp [shapeLe] at hle
    | cons m ms =>
      cases t with
      | scalar x => simp [NTree.hasShape] at hs
      | node ts =>
        simp only [NTree.hasShape, Bool.and_eq_true, beq_iff_eq, hasShapeAll_eq_all,
          List.all_eq_true] at hs
        simp only [shapeLe, Bool.and_eq_true, decide_eq_true_eq] at hle
        obtain ⟨hlen, hall⟩ := hs
        obtain ⟨hmn, hrest⟩ := hle
        simp only [NTree.padTo, NTree.hasShape, padToAll_eq_map, Bool.and_eq_true, beq_iff_eq,
          hasShapeAll_eq_all, List.all_eq_true, List.length_append, List.length_map,
          List.length_replicate]
        constructor
        · omega
        · intro u hu
          rcases List.mem_append.mp hu with hml | hmr
          · obtain ⟨v, hv, rfl⟩ := List.mem_map.mp hml
            exact ih v ms (hall v hv) hrest
          · rw [List.eq_of_mem_replicate hmr]
            exact full_hasShape p rest

theorem padTo_get_inside {α : Type} (p : α) :
    ∀ (target : List Nat) (t : NTree α) (s idx : List Nat),
      t.hasShape s = true → shapeLe s target = true → inBounds idx s = true →
      (NTree.padTo p target t).get idx = t.get idx := by
  intro target
  induction target with
  | nil =>
    intro t s idx hs hle hb
    cases s with
    | nil => cases t <;> simp [NTree.padTo]
    | cons m ms => simp [shapeLe] at hle
  | cons n rest ih =>
    intro t s idx hs hle hb
    cases s with
    | nil => simp [shapeLe] at hle
    | cons m ms =>
      cases t with
      | scalar x => simp [NTree.hasShape] at hs
      | node ts =>
        cases idx with
        | nil => simp [inBounds] at hb
        | cons i is =>
          simp only [NTree.hasShape, Bool.and_eq_true, beq_iff_eq, hasShapeAll_eq_all,
            List.all_eq_true] at hs
          simp only [shapeLe, Bool.and_eq_true, decide_eq_true_eq] at hle
          simp only [inBounds, Bool.and_eq_true, decide_eq_true_eq] at hb
          obtain ⟨hlen, hall⟩ := hs
          have hilt : i < ts.length := by omega
          have hilt2 : i < (NTree.padToAll p rest ts).length := by
            rw [padToAll_eq_map, List.length_map]
            exact hilt
          rw [NTree.padTo, NTree.get, NTree.get, getAt_eq, getAt_eq,
            List.getElem?_append_left hilt2, padToAll_eq_map, List.getElem?_map,
            List.getElem?_eq_getElem hilt]
          simp only [Option.map_some', Option.some_bind]
          exact ih ts[i] ms is (hall ts[i] (List.getElem_mem hilt)) hle.2 hb.2

theorem padTo_get_outside {α : Type} (p : α) :
    ∀ (target : List Nat) (t : NTree α) (s idx : List Nat),
      t.hasShape s = true → shapeLe s target = true → inBounds idx target = true →
      inBounds idx s = false → (NTree.padTo p target t).get idx = some p := by
  intro target
  induction target with
  | nil =>
    intro t s idx hs hle hb hnb
    cases s with
    | nil =>
      cases idx with
      | nil => simp [inBounds] at hnb
      | cons i is => simp [inBounds] at hb
    | cons m ms => simp [shapeLe] at hle
  | cons n rest ih =>
    intro t s idx hs hle hb hnb
    cases s with
    | nil => simp [shapeLe] at hle
    | cons m ms =>
      cases t with
      | scalar x => simp [NTree.hasShape] at hs
      | node ts =>
        cases idx with
        | nil => simp [inBounds] at hb
        | cons i is =>
          simp only [NTree.hasShape, Bool.and_eq_true, beq_iff_eq, hasShapeAll_eq_all,
            List.all_eq_true] at hs
          simp only [shapeLe, Bool.and_eq_true, decide_eq_true_eq] at hle
          simp only [inBounds, Bool.and_eq_true, decide_eq_true_eq] at hb
          obtain ⟨hlen, hall⟩ := hs
          by_cases him : i < m
          · have hnb2 : inBounds is ms = false := by
              simpa [inBounds, him] using hnb
            have hilt : i < ts.length := by omega
            have hilt2 : i < (NTree.padToAll p rest ts).length := by
              rw [padToAll_eq_map, List.length_map]
              exact hilt
            rw [NTree.padTo, NTree.get, getAt_eq, List.getElem?_append_left hilt2,
              padToAll_eq_map, List.getElem?_map, List.getElem?_eq_getElem hilt]
            simp only [Option.map_some', Option.some_bind]
            exact ih ts[i] ms is (hall ts[i] (List.getElem_mem hilt)) hle.2 hb.2 hnb2
          · have hml : (NTree.padToAll p rest ts).length ≤ i := by
              rw [padToAll_eq_map, List.length_map]
              omega
            rw [NTree.padTo, NTree.get, getAt_eq, List.getElem?_append_right hml,
              padToAll_eq_map, List.length_map, List.getElem?_replicate]
            have hlt : i - ts.length < n - ts.length := by omega
            rw [if_pos hlt]
            simp only [Option.some_bind]
            exact full_get p rest is hb.2

theorem padTo_self {α : Type} (p : α) :
    ∀ (s : List Nat) (t : NTree α), t.hasShape s = true → NTree.padTo p s t = t := by
  intro s
  induction s with
  | nil =>
    intro t hs
    cases t <;> simp [NTree.padTo]
  | cons n rest ih =>
    intro t hs
    cases t with
    | scalar x => simp [NTree.hasShape] at hs
    | node ts =>
      simp only [NTree.hasShape, Bool.and_eq_true, beq_iff_eq, hasShapeAll_eq_all,
        List.all_eq_true] at hs
      obtain ⟨hlen, hall⟩ := hs
      have h0 : n - ts.length = 0 := by omega
      rw [NTree.padTo, padToAll_eq_map, h0, List.replicate_zero, List.append_nil]
      congr 1
      exact map_id_of_mem ts (fun u hu => ih u (hall u hu))

theorem deficit_all_zero_iff {s m : List Nat} (hle : shapeLe s m = true) :
    ((List.zipWith (fun x e => x - e) m s).all (fun d => d == 0) = true) ↔ s = m := by
  induction s generalizing m with
  | nil =>
    cases m with
    | nil => simp
    | cons y ys => simp [shapeLe] at hle
  | cons x xs ih =>
    cases m with
    | nil => simp [shapeLe] at hle
    | cons y ys =>
      simp only [shapeLe, Bool.and_eq_true, decide_eq_true_eq] at hle
      simp only [List.zipWith_cons_cons, List.all_cons, Bool.and_eq_true, beq_iff_eq,
        List.cons.injEq]
      constructor
      · rintro ⟨h1, h2⟩
        have hxy : x = y := by omega
        exact ⟨hxy, (ih hle.2).mp h2⟩
      · rintro ⟨rfl, rfl⟩
        exact ⟨by omega, (ih hle.2).mpr rfl⟩

theorem shape_le_maxShape {α : Type} {batch : List (Tensor α)} {r : Nat}
    (hr : ∀ t ∈ batch, t.shape.length = r) :
    ∀ t ∈ batch, shapeLe t.shape (maxShape (batch.map Tensor.shape)) = true := by
  intro t ht
  apply maxShape_le
  · intro s hs
    obtain ⟨u, hu, rfl⟩ := List.mem_map.mp hs
    cases batch with
    | nil => cases ht
    | cons t0 bs =>
      have hhd : (List.map Tensor.shape (t0 :: bs)).headD [] = t0.shape := rfl
      rw [hhd, hr u hu, hr t0 (by simp)]
  · exact List.mem_map_of_mem _ ht

/-! ### The collator in canonical form, and its full specification -/

theorem collate_eq_padded {α : Type} (batch : List (Tensor α)) (p : α) (r : Nat)
    (hne : batch ≠ []) (hwf : ∀ t ∈ batch, t.wf = true)
    (hr : ∀ t ∈ batch, t.shape.length = r) :
    collate_variable_ndim_batch batch p =
      .ok ⟨batch.length :: maxShape (batch.map Tensor.shape),
           .node (batch.map
             (fun t => NTree.padTo p (maxShape (batch.map Tensor.shape)) t.tree))⟩ := by
  cases batch with
  | nil => exact absurd rfl hne
  | cons t0 bs =>
    have hle := shape_le_maxShape hr
    simp only [collate_variable_ndim_batch]
    split
    next hc =>
      have hall : ∀ t ∈ t0 :: bs,
          t.shape = maxShape ((t0 :: bs).map Tensor.shape) := by
        intro t ht
        have hds := (List.all_eq_true.mp hc) _
          (List.mem_map_of_mem _ (List.mem_map_of_mem _ ht))
        exact (deficit_all_zero_iff (hle t ht)).mp hds
      have htrees : ∀ t ∈ t0 :: bs,
          Tensor.tree t =
            NTree.padTo p (maxShape ((t0 :: bs).map Tensor.shape)) t.tree := by
        intro t ht
        rw [padTo_self p _ t.tree (by rw [← hall t ht]; exact hwf t ht)]
      simp only [Tensor.stack, List.head?_cons, Option.map_some', Option.getD_some,
        Except.ok.injEq]
      refine Tensor.ext ?_ ?_
      · simp only [List.length_cons]
        rw [hall t0 (by simp)]
      · simp only
        congr 1
        exact List.map_congr_left htrees
    next hc =>
      have hzip :
          List.zipWith
            (fun t ds =>
              if ds.all (fun d => d == 0) then t
              else Tensor.padTo p (maxShape ((t0 :: bs).map Tensor.shape)) t)
            (t0 :: bs)
            (((t0 :: bs).map Tensor.shape).map
              (fun s => List.zipWith (fun m e => m - e)
                (maxShape ((t0 :: bs).map Tensor.shape)) s)) =
          (t0 :: bs).map
            (Tensor.padTo p (maxShape ((t0 :: bs).map Tensor.shape))) := by
        rw [List.map_map, zipWith_map_self]
        apply List.map_congr_left
        intro t ht
        simp only [Function.comp_apply]
        by_cases hz :
            (List.zipWith (fun m e => m - e)
              (maxShape ((t0 :: bs).map Tensor.shape)) t.shape).all
              (fun d => d == 0) = true
        · rw [if_pos hz]
          have hsh : t.shape = maxShape ((t0 :: bs).map Tensor.shape) :=
            (deficit_all_zero_iff (hle t ht)).mp hz
          refine Tensor.ext ?_ ?_
          · simp [Tensor.padTo, hsh]
          · simp only [Tensor.padTo]
            rw [← hsh, padTo_self p _ t.tree (hwf t ht)]
        · rw [if_neg hz]
      rw [hzip]
      have hstack : ∀ M : List Nat,
          Tensor.stack ((t0 :: bs).map (Tensor.padTo p M)) =
            (⟨(t0 :: bs).length :: M,
              .node ((t0 :: bs).map (fun t => NTree.padTo p M t.tree))⟩ : Tensor α) := by
        intro M
        simp [Tensor.stack, Tensor.padTo, List.map_map, Function.comp]
      rw [hstack]

/-- The full behavioural specification of `collate_variable_ndim_batch` on a
non-empty batch of well-formed tensors of equal rank: the result has shape
`[len(batch)] ++ elementwise-max`, is well formed, agrees with `batch[i]` on
the low-index sub-region given by `batch[i]`'s extents, and is exactly the
padding value outside it. -/
theorem collate_spec {α : Type} (batch : List (Tensor α)) (p : α) (r : Nat)
    (hne : batch ≠ []) (hwf : ∀ t ∈ batch, t.wf = true)
    (hr : ∀ t ∈ batch, t.shape.length = r) :
    ∃ result, collate_variable_ndim_batch batch p = .ok result ∧
      result.shape = batch.length :: maxShape (batch.map Tensor.shape) ∧
      result.wf = true ∧
      (∀ i (hi : i < batch.length) (idx : List Nat),
        inBounds idx (batch[i].shape) = true →
        result.get (i :: idx) = batch[i].get idx) ∧
      (∀ i (hi : i < batch.length) (idx : List Nat),
        inBounds idx (maxShape (batch.map Tensor.shape)) = true →
        inBounds idx (batch[i].shape) = false →
        result.get (i :: idx) = some p) := by
  have hle := shape_le_maxShape hr
  refine ⟨_, collate_eq_padded batch p r hne hwf hr, rfl, ?_, ?_, ?_⟩
  · simp only [Tensor.wf, NTree.hasShape, hasShapeAll_eq_all, Bool.and_eq_true, beq_iff_eq,
      List.all_eq_true, List.length_map]
    refine ⟨trivial, ?_⟩
    intro u hu
    obtain ⟨t, ht, rfl⟩ := List.mem_map.mp hu
    exact padTo_hasShape p _ t.tree t.shape (hwf t ht) (hle t ht)
  · intro i hi idx hb
    have him : i < (batch.map
        (fun t => NTree.padTo p (maxShape (batch.map Tensor.shape)) t.tree)).length := by
      rw [List.length_map]
      exact hi
    simp only [Tensor.get, NTree.get, getAt_eq, List.getElem?_map,
      List.getElem?_eq_getElem hi, Option.map_some', Option.some_bind]
    exact padTo_get_inside p _ _ _ idx (hwf batch[i] (List.getElem_mem hi))
      (hle batch[i] (List.getElem_mem hi)) hb
  · intro i hi idx hb hnb
    simp only [Tensor.get, NTree.get, getAt_eq, List.getElem?_map,
      List.getElem?_eq_getElem hi, Option.map_some', Option.some_bind]
    exact padTo_get_outside p _ _ _ idx (hwf batch[i] (List.getElem_mem hi))
      (hle batch[i] (List.getElem_mem hi)) hb hnb

/-! ### Squeeze / unsqueeze / buffer lemmas -/

theorem squeeze_twice {α : Type} (t : Tensor α) (d : Nat) (hwf : t.wf = true)
    (hs : t.shape = [1, 1, d]) :
    (t.squeeze0.squeeze0).shape = [d] ∧ (t.squeeze0.squeeze0).wf = true ∧
      ∀ idx : List Nat, (t.squeeze0.squeeze0).get idx = t.get (0 :: 0 :: idx) := by
  obtain ⟨s, tr⟩ := t
  simp only [Tensor.wf] at hwf
  simp only at hs
  subst hs
  cases tr with
  | scalar x => simp [NTree.hasShape] at hwf
  | node ts =>
    simp only [NTree.hasShape, Bool.and_eq_true, beq_iff_eq, hasShapeAll_eq_all,
      List.all_eq_true] at hwf
    obtain ⟨hlen, hall⟩ := hwf
    obtain ⟨u, rfl⟩ := List.length_eq_one.mp hlen
    have hu : u.hasShape [1, d] = true := hall u (by simp)
    cases u with
    | scalar x => simp [NTree.hasShape] at hu
    | node us =>
      simp only [NTree.hasShape, Bool.and_eq_true, beq_iff_eq, hasShapeAll_eq_all,
        List.all_eq_true] at hu
      obtain ⟨hlen2, hall2⟩ := hu
      obtain ⟨v, rfl⟩ := List.length_eq_one.mp hlen2
      have hv : v.hasShape [d] = true := hall2 v (by simp)
      refine ⟨rfl, hv, ?_⟩
      intro idx
      simp [Tensor.squeeze0, Tensor.get, NTree.get, NTree.getAt]

theorem unsqueeze0_get {α : Type} (t : Tensor α) (idx : List Nat) :
    t.unsqueeze0.get (0 :: idx) = t.get idx := by
  simp [Tensor.unsqueeze0, Tensor.get, NTree.get, NTree.getAt]

theorem unsqueeze0_wf {α : Type} (t : Tensor α) (h : t.wf = true) :
    t.unsqueeze0.wf = true := by
  simp only [Tensor.unsqueeze0, Tensor.wf, NTree.hasShape, NTree.hasShapeAll,
    Bool.and_eq_true, beq_iff_eq, List.length_cons, List.length_nil]
  exact ⟨trivial, h, trivial⟩

theorem maxShape_singletons (ds : List Nat) (h : ds ≠ []) :
    maxShape (ds.map (fun d => [d])) = [ds.foldl Nat.max 0] := by
  have aux : ∀ (l : List Nat) (a : Nat),
      (l.map (fun d => [d])).foldl (fun acc sh => List.zipWith Nat.max acc sh) [a]
        = [l.foldl Nat.max a] := by
    intro l
    induction l with
    | nil => intro a; rfl
    | cons x xs ih =>
      intro a
      simp only [List.map_cons, List.foldl_cons, List.zipWith_cons_cons, List.zipWith_nil_right]
      exact ih (Nat.max a x)
  cases ds with
  | nil => exact absurd rfl h
  | cons d0 rest =>
    simp only [List.map_cons, maxShape, List.foldl_cons, Nat.zero_max]
    exact aux rest d0

theorem foldl_addObs_encoded {Obs Act : Type} (pairs : List (Tensor ℤ × Tensor ℤ)) :
    ∀ b : ReplayBuffer Obs Act,
      (pairs.foldl (fun bb pr => bb.addNextEncodedObservation pr.1 pr.2) b).encoded_observations
        = b.encoded_observations ++ pairs.map Prod.fst := by
  induction pairs with
  | nil => intro b; simp
  | cons pr rest ih =>
    intro b
    rw [List.foldl_cons, ih]
    simp [ReplayBuffer.addNextEncodedObservation]

theorem length_applyOp {Obs Act : Type} (b : ReplayBuffer Obs Act) (op : BufferOp Obs Act) :
    (b.applyOp op).length = b.length + (if op.isEncodedAction then 1 else 0) := by
  cases op <;>
    simp [ReplayBuffer.applyOp, ReplayBuffer.length, ReplayBuffer.numActions,
      ReplayBuffer.addObservation, ReplayBuffer.addAction, ReplayBuffer.updateSuccessTracker,
      ReplayBuffer.addNextEncodedObservation, ReplayBuffer.addNextEncodedAction,
      BufferOp.isEncodedAction]

theorem length_foldl_applyOp {Obs Act : Type} (ops : List (BufferOp Obs Act)) :
    ∀ b : ReplayBuffer Obs Act,
      (ops.foldl ReplayBuffer.applyOp b).length
        = b.length + (ops.filter BufferOp.isEncodedAction).length := by
  induction ops with
  | nil => intro b; simp
  | cons op ops ih =>
    intro b
    rw [List.foldl_cons, ih, length_applyOp]
    cases hc : op.isEncodedAction <;> simp [List.filter_cons, hc] <;> omega


theorem zipWith_max_self (s : List Nat) : List.zipWith Nat.max s s = s := by
  rw [List.zipWith_same]
  simp

theorem all_sub_self (s : List Nat) :
    (List.zipWith (fun m e => m - e) s s).all (fun d => d == 0) = true := by
  rw [List.zipWith_same, List.all_eq_true]
  intro d hd
  obtain ⟨a, _, rfl⟩ := List.mem_map.mp hd
  simp

theorem foldl_max_const (s : List Nat) :
    ∀ l : List (List Nat), (∀ u ∈ l, u = s) →
      l.foldl (fun acc sh => List.zipWith Nat.max acc sh) s = s := by
  intro l
  induction l with
  | nil => intro _; rfl
  | cons u l ih =>
    intro hl
    rw [List.foldl_cons, hl u (by simp), zipWith_max_self]
    exact ih (fun v hv => hl v (List.mem_cons_of_mem _ hv))

/-! ### Claim theorems -/

/-- C1: for every non-empty batch of well-formed tensors of identical rank and
every padding value `p`, `collate_variable_ndim_batch` returns a tensor of
shape `[len(batch)] ++ elementwise-max-extents` which, at every batch position
`i`, equals `batch[i]` on the low-index sub-region given by `batch[i]`'s
extents (order preserved along axis 0) and equals `p` at every in-range
position outside that sub-region. -/
theorem claim_C1_collate_padding (batch : List (Tensor ℤ)) (p : ℤ) (r : Nat)
    (hne : batch ≠ []) (hwf : ∀ t ∈ batch, t.wf = true)
    (hr : ∀ t ∈ batch, t.shape.length = r) :
    ∃ result, collate_variable_ndim_batch batch p = .ok result ∧
      result.shape = batch.length :: maxShape (batch.map Tensor.shape) ∧
      result.wf = true ∧
      (∀ i (hi : i < batch.length) (idx : List Nat),
        inBounds idx (batch[i].shape) = true →
        result.get (i :: idx) = batch[i].get idx) ∧
      (∀ i (hi : i < batch.length) (idx : List Nat),
        inBounds idx (maxShape (batch.map Tensor.shape)) = true →
        inBounds idx (batch[i].shape) = false →
        result.get (i :: idx) = some p) :=
  collate_spec batch p r hne hwf hr

/-- C1 witness: the spec's concrete scenario — shapes `(2,3)`, `(4,1)`,
`(2,2)` with `pad_value = -100` yield shape `(3,4,3)`, original entries inside
each sub-region and `-100` outside it. -/
theorem claim_C1_collate_padding_check :
    ∃ result, collate_variable_ndim_batch exampleBatch (-100) = .ok result ∧
      result.shape = [3, 4, 3] ∧
      result.get [0, 1, 2] = some 6 ∧ result.get [0, 2, 0] = some (-100) ∧
      result.get [1, 0, 0] = some 7 ∧ result.get [1, 0, 1] = some (-100) ∧
      result.get [2, 1, 1] = some 14 ∧ result.get [2, 1, 2] = some (-100) := by
  obtain ⟨result, h1, h2, hwf, hin, hout⟩ :=
    claim_C1_collate_padding exampleBatch (-100) 2 (List.cons_ne_nil _ _)
      (by decide) (by decide)
  refine ⟨result, h1, ?_, ?_, ?_, ?_, ?_, ?_, ?_⟩
  · rw [h2]
    decide
  · rw [hin 0 (by decide) [1, 2] (by decide)]
    decide
  · exact hout 0 (by decide) [2, 0] (by decide) (by decide)
  · rw [hin 1 (by decide) [0, 0] (by decide)]
    decide
  · exact hout 1 (by decide) [0, 1] (by decide) (by decide)
  · rw [hin 2 (by decide) [1, 1] (by decide)]
    decide
  · exact hout 2 (by decide) [1, 2] (by decide) (by decide)

/-- C5: when every tensor of the non-empty batch has exactly the same shape,
the collator returns the plain stack of the batch along a new leading axis —
no padding value is introduced anywhere. -/
theorem claim_C5_fast_path (batch : List (Tensor ℤ)) (p : ℤ) (s : List Nat)
    (hne : batch ≠ []) (hsh : ∀ t ∈ batch, t.shape = s) :
    collate_variable_ndim_batch batch p = .ok (Tensor.stack batch) := by
  cases batch with
  | nil => exact absurd rfl hne
  | cons t0 bs =>
    have hM : maxShape ((t0 :: bs).map Tensor.shape) = s := by
      simp only [List.map_cons, maxShape]
      rw [hsh t0 (by simp)]
      apply foldl_max_const
      intro u hu
      obtain ⟨t, ht, rfl⟩ := List.mem_map.mp hu
      exact hsh t (List.mem_cons_of_mem _ ht)
    simp only [collate_variable_ndim_batch]
    split
    next => rfl
    next hc =>
      exfalso
      apply hc
      rw [List.all_eq_true]
      intro ds hds
      obtain ⟨u, hu, rfl⟩ := List.mem_map.mp hds
      obtain ⟨t, ht, rfl⟩ := List.mem_map.mp hu
      rw [hM, hsh t ht]
      exact all_sub_self s

/-- C5 witness: collating three tensors that all have shape `(2,2)` returns
exactly their stack. -/
theorem claim_C5_fast_path_check :
    collate_variable_ndim_batch exampleEqualBatch 0 = .ok (Tensor.stack exampleEqualBatch) :=
  claim_C5_fast_path exampleEqualBatch 0 [2, 2] (List.cons_ne_nil _ _) (by decide)

/-- C6: `reset()` puts the buffer back into the empty state whatever its
current state is, and resetting twice yields exactly the same state as
resetting once. -/
theorem claim_C6_reset_idempotent {Obs Act : Type} (b : ReplayBuffer Obs Act) :
    b.reset = (ReplayBuffer.empty : ReplayBuffer Obs Act) ∧ b.reset.reset = b.reset :=
  ⟨rfl, rfl⟩

/-- C6 witness: resetting a populated concrete buffer gives the empty state,
idempotently. -/
theorem claim_C6_reset_idempotent_check :
    (exampleOps.foldl ReplayBuffer.applyOp
        (ReplayBuffer.empty : ReplayBuffer Unit Unit)).reset = ReplayBuffer.empty ∧
      (exampleOps.foldl ReplayBuffer.applyOp
        (ReplayBuffer.empty : ReplayBuffer Unit Unit)).reset.reset =
        (exampleOps.foldl ReplayBuffer.applyOp
          (ReplayBuffer.empty : ReplayBuffer Unit Unit)).reset :=
  claim_C6_reset_idempotent _

/-- C8: `is_successful` is true exactly when at least one success flag has
been appended and the most recent one is `true`; with no flags it is `false`
rather than an error, and appending a flag makes `is_successful` report that
flag. -/
theorem claim_C8_is_successful {Obs Act : Type} (b : ReplayBuffer Obs Act) :
    (b.isSuccessful = true ↔
      b.success_per_step ≠ [] ∧ b.success_per_step.getLast? = some true) ∧
    (b.success_per_step = [] → b.isSuccessful = false) ∧
    (∀ s : Bool, (b.updateSuccessTracker s).isSuccessful = s) := by
  refine ⟨?_, ?_, ?_⟩
  · unfold ReplayBuffer.isSuccessful
    cases hl : b.success_per_step.getLast? with
    | none => simp
    | some v =>
      have hne : b.success_per_step ≠ [] := by
        intro h
        rw [h] at hl
        simp at hl
      simp [hne]
  · intro h
    simp [ReplayBuffer.isSuccessful, h]
  · intro s
    simp [ReplayBuffer.isSuccessful, ReplayBuffer.updateSuccessTracker]

/-- C8 witness: on a concrete buffer with flags `[true, false]` appended, the
most recent flag decides, and the fresh buffer reports `false`. -/
theorem claim_C8_is_successful_check :
    (((ReplayBuffer.empty : ReplayBuffer Unit Unit).updateSuccessTracker
        true).updateSuccessTracker false).isSuccessful = false ∧
      (ReplayBuffer.empty : ReplayBuffer Unit Unit).isSuccessful = false := by
  constructor
  · exact (claim_C8_is_successful
      ((ReplayBuffer.empty : ReplayBuffer Unit Unit).updateSuccessTracker true)).2.2 false
  · exact (claim_C8_is_successful (ReplayBuffer.empty : ReplayBuffer Unit Unit)).2.1 rfl

/-- C9: on a freshly constructed or freshly reset buffer, reading the
encoded-observation accessors raises (the scalar collator's `IndexError` on an
empty list), while the action accessors return the absent signal `None`
instead. -/
theorem claim_C9_empty_read {Obs Act : Type} (b : ReplayBuffer Obs Act) :
    (∃ msg, (ReplayBuffer.empty : ReplayBuffer Obs Act).encodedObservations = .error msg) ∧
    (∃ msg, (ReplayBuffer.empty : ReplayBuffer Obs Act).encodedObservationMasks = .error msg) ∧
    (∃ msg, b.reset.encodedObservations = .error msg) ∧
    (∃ msg, b.reset.encodedObservationMasks = .error msg) ∧
    b.reset.encodedActions = .ok none ∧
    b.reset.encodedActionsMask = .ok none ∧
    (ReplayBuffer.empty : ReplayBuffer Obs Act).encodedActions = .ok none ∧
    (ReplayBuffer.empty : ReplayBuffer Obs Act).encodedActionsMask = .ok none :=
  ⟨⟨_, rfl⟩, ⟨_, rfl⟩, ⟨_, rfl⟩, ⟨_, rfl⟩, rfl, rfl, rfl, rfl⟩

/-- C9 witness: the dichotomy at a concrete populated-then-reset buffer. -/
theorem claim_C9_empty_read_check :
    (∃ msg, (exampleOps.foldl ReplayBuffer.applyOp
      (ReplayBuffer.empty : ReplayBuffer Unit Unit)).reset.encodedObservations =
        .error msg) ∧
    (exampleOps.foldl ReplayBuffer.applyOp
      (ReplayBuffer.empty : ReplayBuffer Unit Unit)).reset.encodedActions = .ok none :=
  ⟨(claim_C9_empty_read _).2.2.1, (claim_C9_empty_read _).2.2.2.2.1⟩

/-- C10: `len(buffer)` counts exactly the `add_next_encoded_action` calls made
since the last reset; appending observations, raw actions, success flags or
encoded observations never changes it, while each encoded action increments
it. -/
theorem claim_C10_length_counts_encoded_actions {Obs Act : Type}
    (b : ReplayBuffer Obs Act) (ops : List (BufferOp Obs Act)) :
    (ops.foldl ReplayBuffer.applyOp b.reset).length
        = (ops.filter BufferOp.isEncodedAction).length ∧
    b.length = b.encoded_actions.length ∧
    (∀ o : Obs, (b.addObservation o).length = b.length) ∧
    (∀ a : Act, (b.addAction a).length = b.length) ∧
    (∀ s : Bool, (b.updateSuccessTracker s).length = b.length) ∧
    (∀ t m : Tensor ℤ, (b.addNextEncodedObservation t m).length = b.length) ∧
    (∀ t m : Tensor ℤ, (b.addNextEncodedAction t m).length = b.length + 1) := by
  refine ⟨?_, rfl, fun o => rfl, fun a => rfl, fun s => rfl, fun t m => rfl, fun t m => ?_⟩
  · rw [length_foldl_applyOp]
    simp [ReplayBuffer.length, ReplayBuffer.numActions, ReplayBuffer.reset]
  · simp [ReplayBuffer.length, ReplayBuffer.numActions, ReplayBuffer.addNextEncodedAction]

/-- C10 witness: on a concrete mixed call sequence with two encoded actions,
the length is 2. -/
theorem claim_C10_length_counts_encoded_actions_check :
    (exampleOps.foldl ReplayBuffer.applyOp
      (ReplayBuffer.empty : ReplayBuffer Unit Unit).reset).length =
      (exampleOps.filter BufferOp.isEncodedAction).length ∧
    (exampleOps.filter BufferOp.isEncodedAction).length = 2 := by
  refine ⟨(claim_C10_length_counts_encoded_actions ReplayBuffer.empty exampleOps).1, ?_⟩
  decide

/-- C7: the composite collators iterate the fixed, statically known key sets
(object-feature names crossed with views; pose-action types) and collate every
leaf independently through the scalar collator, rebuilding the same nested map
shape, with default padding value 0 for visual features and -100 for action
labels. -/
theorem claim_C7_composite_collators :
    (∀ (image_batches : List ObjectFeatures) (name : ObjectFeatureName) (view : ViewLiteral),
      ∃ leaves, (collate_object_features image_batches).lookup name = some leaves ∧
        leaves.lookup view = some (collate_variable_ndim_batch
          (image_batches.map (fun image_batch => image_batch name view)) 0)) ∧
    (∀ (batches : List (PoseActionType → Tensor ℤ)) (pat : PoseActionType),
      (collate_action_batch batches).lookup pat = some (collate_variable_ndim_batch
        (batches.map (fun batch => batch pat)) (-100))) := by
  constructor
  · intro ib name view
    cases name <;> cases view <;> exact ⟨_, rfl, rfl⟩
  · intro bs pat
    cases pat <;> rfl

/-- C7 witness: the collators at concrete inputs and keys. -/
theorem claim_C7_composite_collators_check :
    (∃ leaves, (collate_object_features [exampleFeatures]).lookup .mask = some leaves ∧
      leaves.lookup .top = some (collate_variable_ndim_batch
        ([exampleFeatures].map (fun image_batch => image_batch .mask .top)) 0)) ∧
    (collate_action_batch [exampleActions]).lookup .pose1_rotation =
      some (collate_variable_ndim_batch
        ([exampleActions].map (fun batch => batch .pose1_rotation)) (-100)) :=
  ⟨claim_C7_composite_collators.1 [exampleFeatures] .mask .top,
   claim_C7_composite_collators.2 [exampleActions] .pose1_rotation⟩

/-- C3: on a buffer whose prompt holders are empty (fresh or freshly reset),
setting `encoded_prompt` (resp. `encoded_prompt_mask`) once succeeds and the
getter then returns exactly the value that was set; setting the same field a
second time without a reset raises immediately. -/
theorem claim_C3_prompt_write_once {Obs Act : Type} (b : ReplayBuffer Obs Act)
    (t tm : Tensor ℤ)
    (hp : b.encoded_prompt = []) (hm : b.encoded_prompt_mask = []) :
    (∃ b2, b.setEncodedPrompt t = .ok b2 ∧ b2.encodedPrompt = some t ∧
      ∀ t2 : Tensor ℤ,
        b2.setEncodedPrompt t2 =
          .error "Cannot set the encoded prompt twice. Need to reset buffer first.") ∧
    (∃ b3, b.setEncodedPromptMask tm = .ok b3 ∧ b3.encodedPromptMask = some tm ∧
      ∀ t2 : Tensor ℤ,
        b3.setEncodedPromptMask t2 =
          .error "Cannot set the encoded prompt twice. Need to reset buffer first.") := by
  constructor
  · refine ⟨{ b with encoded_prompt := b.encoded_prompt ++ [t] }, ?_, ?_, ?_⟩
    · simp [ReplayBuffer.setEncodedPrompt, hp]
    · simp [ReplayBuffer.encodedPrompt, hp]
    · intro t2
      simp [ReplayBuffer.setEncodedPrompt, hp]
  · refine ⟨{ b with encoded_prompt_mask := b.encoded_prompt_mask ++ [tm] }, ?_, ?_, ?_⟩
    · simp [ReplayBuffer.setEncodedPromptMask, hm]
    · simp [ReplayBuffer.encodedPromptMask, hm]
    · intro t2
      simp [ReplayBuffer.setEncodedPromptMask, hm]

/-- C3 witness: the write-once discipline at the freshly constructed buffer
with concrete prompt tensors. -/
theorem claim_C3_prompt_write_once_check :
    (∃ b2, (ReplayBuffer.empty : ReplayBuffer Unit Unit).setEncodedPrompt (vecT [1]) =
        .ok b2 ∧ b2.encodedPrompt = some (vecT [1]) ∧
      ∀ t2 : Tensor ℤ,
        b2.setEncodedPrompt t2 =
          .error "Cannot set the encoded prompt twice. Need to reset buffer first.") ∧
    (∃ b3, (ReplayBuffer.empty : ReplayBuffer Unit Unit).setEncodedPromptMask (vecT [2]) =
        .ok b3 ∧ b3.encodedPromptMask = some (vecT [2]) ∧
      ∀ t2 : Tensor ℤ,
        b3.setEncodedPromptMask t2 =
          .error "Cannot set the encoded prompt twice. Need to reset buffer first.") :=
  claim_C3_prompt_write_once ReplayBuffer.empty (vecT [1]) (vecT [2]) rfl rfl

/-- C4: on a buffer with no encoded actions yet (fresh or freshly reset), the
`encoded_actions` and `encoded_actions_mask` accessors return the absent
signal `None` without raising; after one `add_next_encoded_action` call with a
well-formed tensor of shape `(1,1,d)` and mask of shape `(1,1,e)`, the
accessors return well-formed tensors of shapes `(1,1,d)` and `(1,1,e)` — a
leading batch axis of size 1 and a step axis of size 1. -/
theorem claim_C4_absent_actions {Obs Act : Type} (b : ReplayBuffer Obs Act)
    (t m : Tensor ℤ) (d e : Nat)
    (ha : b.encoded_actions = []) (hma : b.encoded_action_masks = [])
    (ht : t.wf = true) (hts : t.shape = [1, 1, d])
    (hmw : m.wf = true) (hms : m.shape = [1, 1, e]) :
    b.encodedActions = .ok none ∧ b.encodedActionsMask = .ok none ∧
    (∃ u, (b.addNextEncodedAction t m).encodedActions = .ok (some u) ∧
      u.shape = [1, 1, d] ∧ u.wf = true) ∧
    (∃ v, (b.addNextEncodedAction t m).encodedActionsMask = .ok (some v) ∧
      v.shape = [1, 1, e] ∧ v.wf = true) := by
  obtain ⟨htsh, htwf, htget⟩ := squeeze_twice t d ht hts
  obtain ⟨hmsh, hmwf, hmget⟩ := squeeze_twice m e hmw hms
  obtain ⟨c, hcol, hcsh, hcwf, _, _⟩ :=
    collate_spec [t.squeeze0.squeeze0] 0 1 (List.cons_ne_nil _ _)
      (by intro u hu; rw [List.mem_singleton.mp hu]; exact htwf)
      (by intro u hu; rw [List.mem_singleton.mp hu, htsh]; rfl)
  obtain ⟨cm, hcolm, hcshm, hcwfm, _, _⟩ :=
    collate_spec [m.squeeze0.squeeze0] 0 1 (List.cons_ne_nil _ _)
      (by intro u hu; rw [List.mem_singleton.mp hu]; exact hmwf)
      (by intro u hu; rw [List.mem_singleton.mp hu, hmsh]; rfl)
  refine ⟨by simp [ReplayBuffer.encodedActions, ha],
    by simp [ReplayBuffer.encodedActionsMask, hma], ⟨c.unsqueeze0, ?_, ?_, ?_⟩,
    ⟨cm.unsqueeze0, ?_, ?_, ?_⟩⟩
  · simp only [ReplayBuffer.encodedActions, ReplayBuffer.addNextEncodedAction, ha,
      List.nil_append, List.isEmpty_cons, Bool.false_eq_true, if_false, List.map_cons,
      List.map_nil]
    rw [hcol]
    rfl
  · simp only [Tensor.unsqueeze0]
    rw [hcsh, List.map_cons, List.map_nil, htsh]
    rfl
  · exact unsqueeze0_wf c hcwf
  · simp only [ReplayBuffer.encodedActionsMask, ReplayBuffer.addNextEncodedAction, hma,
      List.nil_append, List.isEmpty_cons, Bool.false_eq_true, if_false, List.map_cons,
      List.map_nil]
    rw [hcolm]
    rfl
  · simp only [Tensor.unsqueeze0]
    rw [hcshm, List.map_cons, List.map_nil, hmsh]
    rfl
  · exact unsqueeze0_wf cm hcwfm

/-- C4 witness: the fresh buffer returns `None` for both action accessors;
after one `add_next_encoded_action` with shapes `(1,1,3)`, both accessors
return tensors whose shape starts with batch axis 1 and step axis 1. -/
theorem claim_C4_absent_actions_check :
    (ReplayBuffer.empty : ReplayBuffer Unit Unit).encodedActions = .ok none ∧
    (ReplayBuffer.empty : ReplayBuffer Unit Unit).encodedActionsMask = .ok none ∧
    (∃ u, ((ReplayBuffer.empty : ReplayBuffer Unit Unit).addNextEncodedAction
        (encT [7, 8, 9]) (encT [1, 1, 1])).encodedActions = .ok (some u) ∧
      u.shape = [1, 1, 3] ∧ u.wf = true) ∧
    (∃ v, ((ReplayBuffer.empty : ReplayBuffer Unit Unit).addNextEncodedAction
        (encT [7, 8, 9]) (encT [1, 1, 1])).encodedActionsMask = .ok (some v) ∧
      v.shape = [1, 1, 3] ∧ v.wf = true) :=
  claim_C4_absent_actions ReplayBuffer.empty (encT [7, 8, 9]) (encT [1, 1, 1]) 3 3
    rfl rfl (by decide) (by decide) (by decide) (by decide)

/-- C2: after `n ≥ 1` calls of `add_next_encoded_observation` on a buffer with
no prior encoded observations, with well-formed tensors of shapes
`(1,1,d_1), ..., (1,1,d_n)`, the `encoded_observations` accessor returns a
well-formed tensor of shape `(1, n, max_i d_i)` whose row `i` equals the
stored tensor's feature vector on the first `d_i` entries and is right-padded
with zeros up to `max_i d_i`. -/
theorem claim_C2_encoded_observations {Obs Act : Type} (b0 : ReplayBuffer Obs Act)
    (pairs : List (Tensor ℤ × Tensor ℤ)) (ds : List Nat)
    (h0 : b0.encoded_observations = [])
    (hne : pairs ≠ []) (hlen : ds.length = pairs.length)
    (hsh : ∀ i (hi : i < pairs.length) (hid : i < ds.length),
      (pairs[i].1).wf = true ∧ (pairs[i].1).shape = [1, 1, ds[i]]) :
    ∃ result,
      (pairs.foldl (fun b pr => b.addNextEncodedObservation pr.1 pr.2)
        b0).encodedObservations = .ok result ∧
      result.shape = [1, pairs.length, ds.foldl Nat.max 0] ∧
      result.wf = true ∧
      (∀ i (hi : i < pairs.length) (hid : i < ds.length), ∀ j, j < ds[i] →
        result.get [0, i, j] = (pairs[i].1).get [0, 0, j]) ∧
      (∀ i (hi : i < pairs.length) (hid : i < ds.length), ∀ j, ds[i] ≤ j →
        j < ds.foldl Nat.max 0 → result.get [0, i, j] = some 0) := by
  have hsq : ∀ i (hi : i < pairs.length) (hid : i < ds.length),
      ((pairs[i].1).squeeze0.squeeze0).shape = [ds[i]] ∧
        ((pairs[i].1).squeeze0.squeeze0).wf = true ∧
        ∀ idx : List Nat,
          ((pairs[i].1).squeeze0.squeeze0).get idx = (pairs[i].1).get (0 :: 0 :: idx) :=
    fun i hi hid => squeeze_twice _ (ds[i]) (hsh i hi hid).1 (hsh i hi hid).2
  have hne2 : pairs.map (fun pr => pr.1.squeeze0.squeeze0) ≠ [] := by
    simpa using hne
  have hwfb : ∀ u ∈ pairs.map (fun pr => pr.1.squeeze0.squeeze0), u.wf = true := by
    intro u hu
    obtain ⟨pr, hpr, rfl⟩ := List.mem_map.mp hu
    obtain ⟨i, hi, rfl⟩ := List.mem_iff_getElem.mp hpr
    exact (hsq i hi (by omega)).2.1
  have hrb : ∀ u ∈ pairs.map (fun pr => pr.1.squeeze0.squeeze0), u.shape.length = 1 := by
    intro u hu
    obtain ⟨pr, hpr, rfl⟩ := List.mem_map.mp hu
    obtain ⟨i, hi, rfl⟩ := List.mem_iff_getElem.mp hpr
    rw [(hsq i hi (by omega)).1]
    rfl
  obtain ⟨c, hcol, hcsh, hcwf, hin, hout⟩ :=
    collate_spec (pairs.map (fun pr => pr.1.squeeze0.squeeze0)) 0 1 hne2 hwfb hrb
  have hdsne : ds ≠ [] := by
    intro h
    subst h
    simp only [List.length_nil] at hlen
    exact hne (List.length_eq_zero.mp hlen.symm)
  have hshapes : (pairs.map (fun pr => pr.1.squeeze0.squeeze0)).map Tensor.shape
      = ds.map (fun d => [d]) := by
    apply List.ext_getElem
    · simp [hlen]
    · intro i h1 h2
      have hi : i < pairs.length := by simpa using h1
      have hid : i < ds.length := by simpa using h2
      simp only [List.getElem_map]
      exact (hsq i hi hid).1
  have hM : maxShape ((pairs.map (fun pr => pr.1.squeeze0.squeeze0)).map Tensor.shape)
      = [ds.foldl Nat.max 0] := by
    rw [hshapes]
    exact maxShape_singletons ds hdsne
  have hbuf : (pairs.foldl (fun b pr => b.addNextEncodedObservation pr.1 pr.2)
      b0).encodedObservations = .ok c.unsqueeze0 := by
    simp only [ReplayBuffer.encodedObservations]
    rw [foldl_addObs_encoded, h0, List.nil_append, List.map_map]
    have hcomp : pairs.map ((fun u : Tensor ℤ => u.squeeze0.squeeze0) ∘ Prod.fst)
        = pairs.map (fun pr => pr.1.squeeze0.squeeze0) :=
      List.map_congr_left (fun pr _ => rfl)
    rw [hcomp, hcol]
    rfl
  have hgetElem : ∀ i (hi : i < pairs.length)
      (hi2 : i < (pairs.map (fun pr => pr.1.squeeze0.squeeze0)).length),
      (pairs.map (fun pr => pr.1.squeeze0.squeeze0))[i]
        = (pairs[i].1).squeeze0.squeeze0 := by
    intro i hi hi2
    simp
  refine ⟨c.unsqueeze0, hbuf, ?_, unsqueeze0_wf c hcwf, ?_, ?_⟩
  · simp only [Tensor.unsqueeze0]
    rw [hcsh, hM, List.length_map]
  · intro i hi hid j hj
    have hib : i < (pairs.map (fun pr => pr.1.squeeze0.squeeze0)).length := by
      simpa using hi
    have hbnd : inBounds [j]
        (((pairs.map (fun pr : Tensor ℤ × Tensor ℤ => pr.1.squeeze0.squeeze0))[i]).shape)
          = true := by
      rw [hgetElem i hi hib, (hsq i hi hid).1]
      simp [inBounds, hj]
    have hstep := hin i hib [j] hbnd
    rw [unsqueeze0_get c [i, j], hstep, hgetElem i hi hib]
    exact (hsq i hi hid).2.2 [j]
  · intro i hi hid j hjge hjlt
    have hib : i < (pairs.map (fun pr => pr.1.squeeze0.squeeze0)).length := by
      simpa using hi
    have hbndM : inBounds [j]
        (maxShape ((pairs.map (fun pr : Tensor ℤ × Tensor ℤ =>
          pr.1.squeeze0.squeeze0)).map Tensor.shape)) = true := by
      rw [hM]
      simp [inBounds, hjlt]
    have hbnd : inBounds [j]
        (((pairs.map (fun pr : Tensor ℤ × Tensor ℤ => pr.1.squeeze0.squeeze0))[i]).shape)
          = false := by
      rw [hgetElem i hi hib, (hsq i hi hid).1]
      simp [inBounds, Nat.not_lt.mpr hjge]
    have hstep := hout i hib [j] hbndM hbnd
    rw [unsqueeze0_get c [i, j], hstep]

/-- C2 witness: the spec's concrete scenario — three stored encodings of
shapes `(1,1,5)`, `(1,1,7)`, `(1,1,5)` collapse to a view of shape `(1,3,7)`
with the short rows right-padded by zeros. -/
theorem claim_C2_encoded_observations_check :
    ∃ result,
      (exampleObservationPairs.foldl (fun b pr => b.addNextEncodedObservation pr.1 pr.2)
        (ReplayBuffer.empty : ReplayBuffer Unit Unit)).encodedObservations = .ok result ∧
      result.shape = [1, 3, 7] ∧
      result.get [0, 1, 6] = some 7 ∧ result.get [0, 0, 4] = some 5 ∧
      result.get [0, 0, 5] = some 0 ∧ result.get [0, 2, 6] = some 0 := by
  obtain ⟨result, h1, h2, hwf, hin, hout⟩ :=
    claim_C2_encoded_observations (ReplayBuffer.empty : ReplayBuffer Unit Unit)
      exampleObservationPairs [5, 7, 5] rfl (List.cons_ne_nil _ _) rfl (by decide)
  refine ⟨result, h1, ?_, ?_, ?_, ?_, ?_⟩
  · rw [h2]
    rfl
  · rw [hin 1 (by decide) (by decide) 6 (by decide)]
    decide
  · rw [hin 0 (by decide) (by decide) 4 (by decide)]
    decide
  · exact hout 0 (by decide) (by decide) 5 (by decide) (by decide)
  · exact hout 2 (by decide) (by decide) 6 (by decide) (by decide)

end CoGeLoT
